import Mathlib

/-!
Verification development for the Demand-Genius query understanding and
pipeline synthesis engine.  The Python sources under `app/services` are
shallowly embedded: pure functions become Lean functions over `String`,
`List` and `ℚ`; dictionaries become association lists; the external
collaborators (the rapidfuzz similarity scorer, the LLM extractor, the
Mongo-backed category index) become explicit function / data parameters
at their call sites.  Strings are modelled over the ASCII fragment, on
which Python's NFKD normalization step is the identity and `str.lower`
agrees with the ASCII case map.
-/

namespace DemandGenius

/-! ## Python string primitives (ASCII model)

`isWsChar` models Python's `\s` class (space, tab, newline, carriage
return, vertical tab, form feed); `isWordChar` models `\w`
(alphanumerics and underscore).  `lowerChar` models `str.lower` on the
ASCII range. -/

def isWsChar (c : Char) : Bool :=
  c.toNat = 32 || c.toNat = 9 || c.toNat = 10 || c.toNat = 13
    || c.toNat = 11 || c.toNat = 12

def isWordChar (c : Char) : Bool :=
  (48 ≤ c.toNat && c.toNat ≤ 57) || (65 ≤ c.toNat && c.toNat ≤ 90)
    || (97 ≤ c.toNat && c.toNat ≤ 122) || c.toNat = 95

def lowerChar (c : Char) : Char :=
  if 65 ≤ c.toNat ∧ c.toNat ≤ 90 then Char.ofNat (c.toNat + 32) else c

def lowerStr (s : String) : String :=
  ⟨s.data.map lowerChar⟩

/-- `startsW n h` holds when the char list `n` is an initial segment of `h`
(used to model Python substring search). -/
def startsW : List Char → List Char → Bool
  | [], _ => true
  | _ :: _, [] => false
  | a :: as, b :: bs => a = b && startsW as bs

/-- `hasSub n h` models Python's `n in h` substring test on char lists. -/
def hasSub (n : List Char) : List Char → Bool
  | [] => n.isEmpty
  | c :: t => startsW n (c :: t) || hasSub n t

/-- Python's `sub in s` substring containment for strings. -/
def containsSub (s sub : String) : Bool :=
  hasSub sub.data s.data

/-! ## Python dictionary / set helpers

Python dicts (string keys, list-of-string values) are modelled as
association lists with unique keys, in insertion order; Python sets as
duplicate-free accumulation lists. -/

/-- Model of Python `set.add`: a duplicate-free accumulation list. -/
def addUnique (l : List String) (x : String) : List String :=
  if x ∈ l then l else l ++ [x]

/-- Model of Python `list(set(xs))`, keeping first occurrences. -/
def dedupKeepFirst (l : List String) : List String :=
  l.foldl addUnique []

/-- Python `dict.update`: existing keys are overwritten in place, new
keys appended in iteration order. -/
def dictUpdate (d upd : List (String × List String)) :
    List (String × List String) :=
  upd.foldl (fun acc kv =>
    if (acc.map Prod.fst).contains kv.1 then
      acc.map fun p => if p.1 = kv.1 then kv else p
    else acc ++ [kv]) d

/-- First-binding dictionary lookup on an association list. -/
def lookupD (d : List (String × List String)) (k : String) :
    Option (List String) :=
  (d.find? fun p => p.1 = k).map Prod.snd

/-- Python `d.setdefault(k, []).append(v)`: append `v` to the list at
key `k`, creating the entry if absent. -/
def setdefaultApp (d : List (String × List String)) (k v : String) :
    List (String × List String) :=
  if (d.map Prod.fst).contains k then
    d.map fun p => if p.1 = k then (p.1, p.2 ++ [v]) else p
  else d ++ [(k, [v])]

namespace CategoryExtracter

/-! ## `app/services/category_extracter.py` — text normalizer

`clean_text` performs, in source order: NFKD normalization (identity on
the ASCII fragment modelled here), `re.sub(r"[^\w\s]", " ", text)`,
`re.sub(r"\s+", " ", text)`, `.strip()`, `.lower()`. -/

/-- `re.sub(r"[^\w\s]", " ", ·)`: every character that is neither a word
character nor whitespace is replaced by a single space. -/
def punctToSpace (l : List Char) : List Char :=
  l.map fun c => if isWordChar c || isWsChar c then c else ' '

/-- Part of `re.sub(r"\s+", " ", ·)`: each whitespace character becomes
a plain space (the run-collapsing half is `squeezeSpaces`). -/
def wsToSpace (l : List Char) : List Char :=
  l.map fun c => if isWsChar c then ' ' else c

/-- Part of `re.sub(r"\s+", " ", ·)`: adjacent spaces are collapsed to
one. -/
def squeezeSpaces : List Char → List Char
  | [] => []
  | [c] => [c]
  | a :: b :: t =>
    if a = ' ' && b = ' ' then squeezeSpaces (b :: t)
    else a :: squeezeSpaces (b :: t)

/-- Python `str.strip()`: drop leading and trailing whitespace. -/
def stripWs (l : List Char) : List Char :=
  ((l.dropWhile isWsChar).reverse.dropWhile isWsChar).reverse

def cleanTextL (l : List Char) : List Char :=
  (stripWs (squeezeSpaces (wsToSpace (punctToSpace l)))).map lowerChar

/-- `clean_text` from `category_extracter.py`: normalize text
(lowercase, remove punctuation, collapse spaces). -/
def clean_text (s : String) : String :=
  ⟨cleanTextL s.data⟩

/-- `lemmatize_words` on the deterministic fallback path (spaCy absent):
`text.split()`, i.e. split on whitespace runs dropping empty pieces. -/
def pyWordsAux (acc : List Char) : List Char → List (List Char)
  | [] => if acc.isEmpty then [] else [acc.reverse]
  | c :: t =>
    if isWsChar c then
      if acc.isEmpty then pyWordsAux [] t else acc.reverse :: pyWordsAux [] t
    else pyWordsAux (c :: acc) t

def pyWords (s : String) : List String :=
  (pyWordsAux [] s.data).map fun l => ⟨l⟩

def lemmatize_words (s : String) : List String :=
  pyWords s

/-! ## `category_extracter.py` — vocabulary matcher and classifier

The tenant vocabulary (`load_tenant_categories`, a Mongo read) is passed
in as an association list `categoryMap`; the rapidfuzz `fuzz.WRatio`
scorer is the external similarity collaborator, passed as `scorer`
(scores are on the 0–100 scale, and every similarity scorer of the
library returns 100 on identical strings). -/

/-- Stable descending insertion by score: a new option is placed after
every already-placed option scoring at least as much, so that equal
scores keep their input order — the extractor's tie-breaking. -/
def insertByScoreDesc (scorer : String → String → Nat) (query : String)
    (x : String) : List String → List String
  | [] => [x]
  | y :: t =>
    if scorer query y < scorer query x then x :: y :: t
    else y :: insertByScoreDesc scorer query x t

/-- Stable sort of the options by score, best first. -/
def sortByScoreDesc (scorer : String → String → Nat) (query : String) :
    List String → List String
  | [] => []
  | x :: t => insertByScoreDesc scorer query x (sortByScoreDesc scorer query t)

/-- `fuzzy_extract`: `process.extract(query, options, scorer=fuzz.WRatio,
score_cutoff=threshold)`, keeping the matched strings: the options
scoring at or above the cutoff, best first (ties in input order),
capped at the library call's default `limit` of the five best
matches. -/
def fuzzy_extract (scorer : String → String → Nat) (query : String)
    (options : List String) (threshold : Nat) : List String :=
  (sortByScoreDesc scorer query
    (options.filter fun opt => threshold ≤ scorer query opt)).take 5

def STRUCTURED_TRIGGERS : List String :=
  ["show", "list", "find", "get", "give me", "display"]

def ADVISORY_TRIGGERS : List String :=
  ["how many", "what is the best", "least", "most", "should", "why"]

/-- `classify_query`: advisory triggers override; otherwise structured
requires at least one non-empty filter and a structured verb. -/
def classify_query (user_query : String)
    (filters_found : List (String × List String)) : String :=
  let query_clean := clean_text user_query
  if ADVISORY_TRIGGERS.any (fun t => containsSub query_clean t) then "advisory"
  else
    let has_filter := !filters_found.isEmpty
      && filters_found.any (fun p => !p.2.isEmpty)
    let has_structured_verb :=
      STRUCTURED_TRIGGERS.any (fun t => containsSub query_clean t)
    if has_filter && has_structured_verb then "structured" else "advisory"

/-- Is position `i` of `l` occupied by a word character? (out of range
counts as non-word, as at the ends of a Python string). -/
def wordAt (l : List Char) (i : Nat) : Bool :=
  match l[i]? with
  | some c => isWordChar c
  | none => false

/-- The regex word boundary `\b` between positions `i - 1` and `i`. -/
def boundaryAt (l : List Char) (i : Nat) : Bool :=
  (if i = 0 then false else wordAt l (i - 1)) != wordAt l i

/-- `re.search(rf"\b{re.escape(opt)}\b", query)`: the literal `opt`
occurs somewhere in `query` flanked by word boundaries. -/
def wholeWordSearch (opt query : List Char) : Bool :=
  (List.range (query.length + 1)).any fun i =>
    startsW opt (query.drop i) && boundaryAt query i
      && boundaryAt query (i + opt.length)

/-- `options[normalized_options.index(match)]` from the fuzzy-match
branch of `parse_query`. -/
def origAt (options normalized : List String) (mtch : String) : Option String :=
  options[normalized.indexOf mtch]?

/-- The per-category body of `parse_query`'s matching loop (source lines
105–128): exact whole-word match, then lemma match, then fuzzy match,
accumulated into one duplicate-free match set. -/
def categoryMatches (scorer : String → String → Nat) (query_clean : String)
    (lemmas : List String) (options : List String) : List String :=
  let normalized_options := options.map clean_text
  let pairs := options.zip normalized_options
  let m1 := pairs.foldl (fun m p =>
    if wholeWordSearch p.2.data query_clean.data then addUnique m p.1 else m) []
  let m2 := lemmas.foldl (fun m lem =>
    pairs.foldl (fun m p =>
      if lem = lowerStr p.2 then addUnique m p.1 else m) m) m1
  lemmas.foldl (fun m lem =>
    (fuzzy_extract scorer lem normalized_options 85).foldl (fun m mt =>
      match origAt options normalized_options mt with
      | some opt => addUnique m opt
      | none => m) m) m2

/-- The filter-building loop of `parse_query` (source lines 105–128):
one dictionary entry per category whose match set is non-empty, in
vocabulary order. -/
def buildFilters (scorer : String → String → Nat) (query_clean : String)
    (lemmas : List String) :
    List (String × List String) → List (String × List String)
  | [] => []
  | cp :: rest =>
    let ms := categoryMatches scorer query_clean lemmas cp.2
    if ms.isEmpty then buildFilters scorer query_clean lemmas rest
    else (cp.1, ms) :: buildFilters scorer query_clean lemmas rest

structure ParseResult where
  classification : String
  filters : List (String × List String)
deriving Repr, DecidableEq

/-- `parse_query` from `category_extracter.py`: deterministic matching
over the tenant vocabulary, then the optional LLM fallback merge
(`filters.update(llm_filters)` guarded by `use_llm and not filters`),
then classification.  `llm_filters` is the response of the external
`extract_filters_from_llm` collaborator. -/
def parse_query (scorer : String → String → Nat)
    (llm_filters : List (String × List String)) (use_llm : Bool)
    (user_query : String) (categoryMap : List (String × List String)) :
    ParseResult :=
  let query_clean := clean_text user_query
  let lemmas := lemmatize_words query_clean
  let filters := buildFilters scorer query_clean lemmas categoryMap
  let filters :=
    if use_llm && filters.isEmpty then dictUpdate filters llm_filters
    else filters
  { classification := classify_query user_query filters
    filters := filters }

end CategoryExtracter

namespace QueryParserWorking

/-! ## `app/services/query_parser_working.py` — LLM parse post-processing

`post_process_results` merges quoted entities, the hard-coded synonym
table, and a fuzzy synonym pass into the filters returned by the LLM
tool call.  `fuzz.partial_ratio` is the external similarity
collaborator, passed as `partialRatio`. -/

/-- `synonyms_map`: phrase ↦ (target category, mapped value). -/
def synonyms_map : List (String × String × String) :=
  [("marketing personas", "Primary Audience", "Marketing Personas"),
   ("revenue teams", "Primary Audience", "Revenue Teams"),
   ("non english", "Language", "German")]

/-- `normalize_filters`: every value becomes a list (`vals or []`);
`none` models JSON `null` from the tool response. -/
def normalize_filters0 (filters : List (String × Option (List String))) :
    List (String × List String) :=
  filters.map fun p => (p.1, p.2.getD [])

/-- `normalize_filters` applied to an already list-valued dict
(`vals or []` is the identity there). -/
def normalize_filters (filters : List (String × List String)) :
    List (String × List String) :=
  filters.map fun p => (p.1, p.2)

/-- `apply_synonyms_map` (source lines 182–199).  The synonym table
stores a single string as mapped value, so the source's
`for val in mapped_values` iterates its characters; each character is
compared, as a one-character string, against the tenant's allowed
values before being appended.  Finally every category's list is
deduplicated (`list(set(...))`). -/
def apply_synonyms_map (partialRatio : String → String → Nat)
    (query_text : String) (filters0 : List (String × List String))
    (categories : List (String × List String)) (threshold : Nat) :
    List (String × List String) :=
  let query_lower := lowerStr query_text
  let filters := normalize_filters filters0
  let filters := synonyms_map.foldl (fun fs syn =>
    let score := partialRatio (lowerStr syn.1) query_lower
    if threshold ≤ score then
      syn.2.2.data.foldl (fun fs c =>
        let val : String := ⟨[c]⟩
        if val ∈ (lookupD categories syn.2.1).getD [] then
          setdefaultApp fs syn.2.1 val
        else fs) fs
    else fs) filters
  filters.map fun p => (p.1, dedupKeepFirst p.2)

structure ParsedData where
  filters : List (String × Option (List String))
  quoted_entities : List String
  query_text : String

/-- `post_process_results` (source lines 154–179): (1) map quoted
entities to categories on exact membership; (2) append the synonym
table's mapped value whenever its phrase occurs in the query text —
with no check against the tenant's allowed values; (3) run the fuzzy
synonym pass; finally re-normalize. -/
def post_process_results (partialRatio : String → String → Nat)
    (pd : ParsedData) (categories : List (String × List String)) :
    List (String × List String) :=
  let filters := normalize_filters0 pd.filters
  let filters := pd.quoted_entities.foldl (fun fs entity =>
    categories.foldl (fun fs cp =>
      if entity ∈ cp.2 ∧ entity ∉ (lookupD fs cp.1).getD [] then
        setdefaultApp fs cp.1 entity
      else fs) fs) filters
  let filters := synonyms_map.foldl (fun fs syn =>
    if containsSub (lowerStr pd.query_text) (lowerStr syn.1) then
      setdefaultApp fs syn.2.1 syn.2.2
    else fs) filters
  let filters :=
    apply_synonyms_map partialRatio pd.query_text filters categories 85
  normalize_filters filters

end QueryParserWorking

namespace QueryParser

/-! ## `app/services/query_parser.py` — temporal constraint extractor

`TemporalParser.parse_temporal_constraints` runs, over the lowercased
query: the three range regexes, then the `before` branch, then the
`after`/`since` branch, then the relative-date patterns.  The regex
patterns are embedded as explicit scanning functions with the same
leftmost-match, lazy-capture semantics.  `datetime` values are the
`PyDate` structure plus `isoformat`; the clock-relative offsets of the
relative branch are kept as signed day offsets from the current instant
(the calendar rendering of the external `datetime` library is
abstracted; no claim inspects those values). -/

/-- A Python filter value as `calculate_confidence` may receive it:
`None`, a list, or a bare string. -/
inductive PyVal
  | nil
  | lst (l : List String)
  | strv (s : String)
deriving Repr, DecidableEq

/-- The value normalization inside `calculate_confidence` /
`suggest_improvements`: `None` becomes `[]`, lists pass through, a bare
truthy scalar becomes a singleton. -/
def normalizeVal : PyVal → List String
  | .nil => []
  | .lst l => l
  | .strv s => if s ≠ "" then [s] else []

/-- The fields of the parsed-result dict that `calculate_confidence`
reads (`operation_type` absent from the dict behaves like a value
different from `"list"`). -/
structure ParsedResultD where
  filters : List (String × PyVal)
  quoted_entities : List String
  operation_type : String
deriving Repr, DecidableEq

/-- `QueryOptimizer.calculate_confidence` (source lines 267–300): base
0.5, plus up to 0.3 for filters (0.05 each), plus up to 0.2 for quoted
entities (0.1 each), minus 0.2 for queries of fewer than three words,
plus 0.1 for a non-`list` operation, clamped into `[0, 1]`. -/
def calculate_confidence (pr : ParsedResultD) (query_text : String) : ℚ :=
  let confidence : ℚ := 1/2
  let confidence :=
    if !pr.filters.isEmpty then
      let filter_count : ℚ :=
        ((pr.filters.map fun p => (normalizeVal p.2).length).sum : ℕ)
      confidence + min (3/10) (filter_count * (1/20))
    else confidence
  let confidence :=
    if !pr.quoted_entities.isEmpty then
      confidence + min (2/10) ((pr.quoted_entities.length : ℚ) * (1/10))
    else confidence
  let confidence :=
    if (CategoryExtracter.pyWords query_text).length < 3 then
      confidence - 2/10
    else confidence
  let confidence :=
    if pr.operation_type ≠ "list" then confidence + 1/10 else confidence
  max 0 (min 1 confidence)

/-- The advisor harness of `enhanced_post_process_results` (source
lines 527–539): suggestion generation and confidence calculation each
run under `try/except`; the outcome of each call is passed in as an
`Except` value, a raise falling back to `[]` and `0.5` respectively,
and the pair is always produced. -/
def advisorSection (suggestionsResult : Except String (List String))
    (confidenceResult : Except String ℚ) : List String × ℚ :=
  let suggestions :=
    match suggestionsResult with
    | .ok s => s
    | .error _ => []
  let confidence_score :=
    match confidenceResult with
    | .ok c => c
    | .error _ => 1/2
  (suggestions, confidence_score)

end QueryParser

/-! ## Shared query-plan data model

Both pipeline builders (`pipeline_builder.py` and
`try_query_builder.py`) produce a list of MongoDB aggregation stages;
the stages are embedded as one inductive.  `bson.ObjectId` wrapping of
tenant and category ids is injective on the valid hex ids this code
receives, so ids are kept as plain strings. -/

/-- First-binding lookup (`dict.get`) on an association list with
values of any type. -/
def lookupA {α : Type} (d : List (String × α)) (k : String) : Option α :=
  (d.find? fun p => p.1 = k).map Prod.snd

/-- One entry of `database_mapping["required_joins"]` as built by
`enhanced_post_processing`.  `category` is `""` when the key is absent
(Python `None`, falsy). -/
structure Join where
  collection : String
  field : String
  lookup_field : String
  values : List String
  category : String
deriving Repr, DecidableEq

/-- `database_mapping` as built by `enhanced_post_processing`. -/
structure DatabaseMapping where
  required_joins : List Join
  direct_fields : List (String × List String)
  aggregation_fields : List String
deriving Repr, DecidableEq

/-- The `_id` argument of a `$group` stage: a single field path or a
dict of field paths. -/
inductive GroupId
  | single (path : String)
  | multi (paths : List (String × String))
deriving Repr, DecidableEq

/-- MongoDB aggregation stages as emitted by the two builders.  A
`lookup` stage's inner pipeline is the single `$match` of the source:
`$expr: {$in: ["$_id", "$$<localField ids>"]}` (always present,
represented structurally), a `tenant` equality on `tenantScope`, an
optional `category` equality (`catScope`), and an optional
`{lookupField: {$in: values}}` (`valueFilter`). -/
inductive Stage
  | matchTenant (tenant : String)
  | lookup (src : String) (localField : String) (tenantScope : String)
      (catScope : Option String)
      (valueFilter : Option (String × List String)) (asField : String)
  | unwind (path : String) (preserveNullAndEmpty : Bool)
  | matchDirect (conds : List (String × List String))
  | group (groupId : GroupId)
  | sortByCountDesc
  | limit (n : Nat)
  | countStage (label : String)
deriving Repr, DecidableEq

namespace PipelineBuilder

/-! ## `app/services/pipeline_builder.py` -/

/-- The inputs read by this builder's `build_structured_pipeline`:
`database_mapping` and the `aggregation_requested` flag. -/
structure ParsedQueryPB where
  database_mapping : DatabaseMapping
  aggregation_requested : Bool
deriving Repr, DecidableEq

/-- The stages contributed by one entry of `required_joins` (source
lines 16–42): nothing unless the join targets `category_attributes`;
otherwise a `$lookup` on the `categoryAttribute` id array — whose inner
match carries the value filter only when the join has values and the
query is not an aggregation request — followed by a non-preserving
`$unwind`. -/
def joinStagesFor (parsed_query : ParsedQueryPB) (tenant_id : String)
    (join : Join) : List Stage :=
  if join.collection = "category_attributes" then
    let valueFilter :=
      if join.values ≠ [] ∧ ¬parsed_query.aggregation_requested then
        some (join.lookup_field, join.values)
      else none
    [Stage.lookup "category_attributes" "categoryAttribute" tenant_id none
       valueFilter "categoryAttributeDetails",
     Stage.unwind "categoryAttributeDetails" false]
  else []

/-- The stages appended for one aggregation field (source lines 56–69):
group on the joined field's path when the field has a join, else the
raw field, then sort by count descending and limit 1. -/
def aggStagesFor (parsed_query : ParsedQueryPB) (agg_field : String) :
    List Stage :=
  let group_field :=
    if parsed_query.database_mapping.required_joins.any
        (fun j => j.category = agg_field) then
      "$categoryAttributeDetails." ++ agg_field
    else "$" ++ agg_field
  [Stage.group (GroupId.single group_field),
   Stage.sortByCountDesc, Stage.limit 1]

/-- `build_structured_pipeline` from `pipeline_builder.py`: tenant
match, joins, direct-field filters, then per-aggregation-field
`$group`/`$sort`/`$limit 1`. -/
def build_structured_pipeline (parsed_query : ParsedQueryPB)
    (tenant_id : String) : List Stage :=
  let pipeline := [Stage.matchTenant tenant_id]
  let pipeline := parsed_query.database_mapping.required_joins.foldl
    (fun pl join => pl ++ joinStagesFor parsed_query tenant_id join) pipeline
  let direct_fields := parsed_query.database_mapping.direct_fields
  let pipeline :=
    if direct_fields ≠ [] then
      pipeline ++ [Stage.matchDirect (direct_fields.filter fun p => p.2 ≠ [])]
    else pipeline
  if parsed_query.aggregation_requested then
    parsed_query.database_mapping.aggregation_fields.foldl
      (fun pl agg_field => pl ++ aggStagesFor parsed_query agg_field) pipeline
  else pipeline

end PipelineBuilder

namespace TryQueryBuilder

/-! ## `app/services/try_query_builder.py`

`category_index.get_category_id` is the external Mongo-backed resolver;
it is passed as `category_index : String → String → Option String`,
`none` covering both a falsy result and a swallowed exception. -/

def FILTER_MAPPING : List (String × String) :=
  [("Funnel Stage", "category"),
   ("Industry", "category"),
   ("Primary Audience", "category"),
   ("Secondary Audience", "category"),
   ("Page Type", "direct"),
   ("Language", "direct"),
   ("Title", "direct"),
   ("URL", "direct")]

/-- The inputs read by this builder. -/
structure ParserOutput where
  filters : List (String × List String)
  database_mapping : DatabaseMapping
  operation_type : String
  aggregation_requested : Bool
deriving Repr, DecidableEq

def build_tenant_match (tenant_id : String) : Stage :=
  Stage.matchTenant tenant_id

/-- `apply_direct_field_filters`: any-of match over the non-empty
fields, or nothing (the source's empty dict, falsy) when no condition
remains. -/
def apply_direct_field_filters (filters : List (String × List String)) :
    Option Stage :=
  let match_conditions := filters.filter fun p => p.2 ≠ []
  if match_conditions ≠ [] then some (Stage.matchDirect match_conditions)
  else none

/-- The stages contributed by one join in `build_category_lookups`
(source lines 41–102): skip a malformed join (empty collection or local
field); resolve the scoping category id, swallowing a failed or falsy
resolution; filter by values inside the lookup when present; unwind
without preserving unmatched documents. -/
def lookupStagesFor (tenant_id : String)
    (category_index : String → String → Option String) (join : Join) :
    List Stage :=
  let collection : String := ⟨CategoryExtracter.stripWs join.collection.data⟩
  let local_field : String := ⟨CategoryExtracter.stripWs join.field.data⟩
  let lookup_field : String := ⟨CategoryExtracter.stripWs join.lookup_field.data⟩
  let values := join.values
  let category_name := join.category
  let as_field :=
    if local_field ≠ "" then local_field ++ "Details"
    else collection ++ "Details"
  if collection = "" ∨ local_field = "" then []
  else
    let category_match : Option String :=
      if category_name ≠ "" then category_index tenant_id category_name
      else none
    let value_match : Option (String × List String) :=
      if values ≠ [] then some (lookup_field, values) else none
    [Stage.lookup collection local_field tenant_id category_match value_match
       as_field,
     Stage.unwind as_field false]

/-- `build_category_lookups`. -/
def build_category_lookups (required_joins : List Join) (tenant_id : String)
    (category_index : String → String → Option String) : List Stage :=
  required_joins.foldl
    (fun stages join => stages ++ lookupStagesFor tenant_id category_index join)
    []

/-- `apply_aggregation` (source lines 129–174). -/
def apply_aggregation (pipeline : List Stage) (parser_output : ParserOutput) :
    List Stage :=
  let operation_type := parser_output.operation_type
  let aggregation_requested := parser_output.aggregation_requested
  let agg_fields := parser_output.database_mapping.aggregation_fields
  if ¬aggregation_requested
      ∧ operation_type ∉ ["aggregate", "count", "rank"] then pipeline
  else if operation_type = "count" then
    pipeline ++ [Stage.countStage "total_results"]
  else if operation_type = "aggregate" ∨ operation_type = "rank" then
    if agg_fields = [] then pipeline ++ [Stage.countStage "total_results"]
    else
      let group_id :=
        if agg_fields.length = 1 then
          GroupId.single ("$categoryAttributeDetails." ++ agg_fields.headD "")
        else
          GroupId.multi
            (agg_fields.map fun f => (f, "$categoryAttributeDetails." ++ f))
      let pl := pipeline ++ [Stage.group group_id, Stage.sortByCountDesc]
      if operation_type = "rank" then pl ++ [Stage.limit 1] else pl
  else pipeline

/-- `build_structured_pipeline` from `try_query_builder.py`: tenant
match; split filters into category vs direct by `FILTER_MAPPING.get`
(a field with neither mapping falls into no bucket); category lookups;
direct-field match; aggregation stages. -/
def build_structured_pipeline (parser_output : ParserOutput)
    (tenant_id : String)
    (category_index : String → String → Option String) : List Stage :=
  let pipeline := [build_tenant_match tenant_id]
  let split := parser_output.filters.foldl
    (fun (acc : List (String × List String) × List (String × List String)) fv =>
      if fv.2 = [] then acc
      else
        let filter_type := lookupA FILTER_MAPPING fv.1
        if filter_type = some "category" then (acc.1 ++ [fv], acc.2)
        else if filter_type = some "direct" then (acc.1, acc.2 ++ [fv])
        else acc)
    ([], [])
  let direct_filters := split.2
  let required_joins := parser_output.database_mapping.required_joins
  let pipeline :=
    if required_joins ≠ [] then
      pipeline ++ build_category_lookups required_joins tenant_id category_index
    else pipeline
  let pipeline :=
    match apply_direct_field_filters direct_filters with
    | some st => pipeline ++ [st]
    | none => pipeline
  apply_aggregation pipeline parser_output

end TryQueryBuilder

namespace TryQueryParser

/-! ## `app/services/try_query_parser.py` — database mapping preparation -/

/-- One entry of `get_database_field_mapping()`; `lookup_field` is `""`
for the source's `None` (the `Language` entry, which never joins). -/
structure FieldMapInfo where
  collection : String
  field_path : String
  lookup_field : String
  requires_join : Bool
deriving Repr, DecidableEq

def get_database_field_mapping : List (String × FieldMapInfo) :=
  [("Funnel Stage", ⟨"category_attributes", "categoryAttribute", "name", true⟩),
   ("Primary Audience", ⟨"category_attributes", "categoryAttribute", "name", true⟩),
   ("Secondary Audience", ⟨"category_attributes", "categoryAttribute", "name", true⟩),
   ("Page Type", ⟨"sitemaps", "contentType", "name", true⟩),
   ("Industry", ⟨"category_attributes", "categoryAttribute", "name", true⟩),
   ("Language", ⟨"sitemaps", "geoFocus", "", false⟩)]

/-- Dictionary assignment `d[k] = v`. -/
def dictSet (d : List (String × List String)) (k : String) (v : List String) :
    List (String × List String) :=
  if (d.map Prod.fst).contains k then
    d.map fun p => if p.1 = k then (p.1, v) else p
  else d ++ [(k, v)]

/-- The database-mapping loop of `enhanced_post_processing` (source
lines 240–259): each filter with values and a field mapping becomes a
required join or a direct field; a filter whose category is absent from
the field mapping contributes nothing. -/
def buildDatabaseInfo (filters : List (String × List String)) :
    DatabaseMapping :=
  filters.foldl
    (fun db fv =>
      if fv.2 ≠ [] then
        match lookupA get_database_field_mapping fv.1 with
        | some mi =>
          if mi.requires_join then
            { db with required_joins := db.required_joins ++
                [{ collection := mi.collection, field := mi.field_path,
                   lookup_field := mi.lookup_field, values := fv.2,
                   category := fv.1 }] }
          else
            { db with direct_fields := dictSet db.direct_fields mi.field_path fv.2 }
        | none => db
      else db)
    ⟨[], [], []⟩

end TryQueryParser

/-! ## Concrete collaborator instances used in witnesses

`scorer0` is the similarity metric restricted to the one fact every
rapidfuzz scorer (including `fuzz.WRatio` and `fuzz.partial_ratio`)
satisfies: identical strings score 100.  `scorerSub` additionally
scores 100 when the first string is a substring of the second — the
perfect-partial-match case of `fuzz.partial_ratio`. -/

def scorer0 : String → String → Nat :=
  fun a b => if a = b then 100 else 0

def scorerSub : String → String → Nat :=
  fun a b => if hasSub a.data b.data then 100 else 0

/-- A concrete `category_attributes` join, used to instantiate the
builder theorems. -/
def joinFS : Join :=
  { collection := "category_attributes", field := "categoryAttribute",
    lookup_field := "name", values := ["TOFU"], category := "Funnel Stage" }

/-- A parsed query requesting aggregation over `Funnel Stage`. -/
def pxAgg : PipelineBuilder.ParsedQueryPB :=
  { database_mapping :=
      { required_joins := [joinFS], direct_fields := [],
        aggregation_fields := ["Funnel Stage"] },
    aggregation_requested := true }

/-- A parsed query filtering (no aggregation) over `Funnel Stage`. -/
def pxFlt : PipelineBuilder.ParsedQueryPB :=
  { database_mapping :=
      { required_joins := [joinFS], direct_fields := [],
        aggregation_fields := [] },
    aggregation_requested := false }

/-- No two adjacent spaces — the shape `re.sub(r"\s+", " ", ·)` leaves
behind, used to characterize normalized text. -/
def NoAdj (a b : Char) : Prop :=
  ¬(a = ' ' ∧ b = ' ')

/-! ## Character-level lemmas -/

theorem toNat_ofNat_small (n : Nat) (h : n < 55296) : (Char.ofNat n).toNat = n := by
  have hv : n.isValidChar := Or.inl h
  rw [Char.ofNat, dif_pos hv]
  simp [Char.ofNatAux, Char.toNat, UInt32.toNat, BitVec.toNat_ofNatLt]

theorem charToNat_inj {a b : Char} (h : a.toNat = b.toNat) : a = b :=
  Char.eq_of_val_eq (UInt32.toNat.inj h)

theorem toNat_lowerChar (c : Char) :
    (lowerChar c).toNat =
      if 65 ≤ c.toNat ∧ c.toNat ≤ 90 then c.toNat + 32 else c.toNat := by
  unfold lowerChar
  split
  · exact toNat_ofNat_small _ (by omega)
  · rfl

theorem lowerChar_idem (c : Char) : lowerChar (lowerChar c) = lowerChar c := by
  apply charToNat_inj
  rw [toNat_lowerChar, toNat_lowerChar]
  split_ifs <;> omega

theorem char_eq_space_iff {a : Char} : a = ' ' ↔ a.toNat = 32 :=
  ⟨fun h => h ▸ rfl, fun h => charToNat_inj h⟩

theorem isWsChar_iff {c : Char} :
    isWsChar c = true ↔
      c.toNat = 32 ∨ c.toNat = 9 ∨ c.toNat = 10 ∨ c.toNat = 13
        ∨ c.toNat = 11 ∨ c.toNat = 12 := by
  simp only [isWsChar, Bool.or_eq_true, decide_eq_true_eq]
  omega

theorem isWordChar_iff {c : Char} :
    isWordChar c = true ↔
      (48 ≤ c.toNat ∧ c.toNat ≤ 57) ∨ (65 ≤ c.toNat ∧ c.toNat ≤ 90)
        ∨ (97 ≤ c.toNat ∧ c.toNat ≤ 122) ∨ c.toNat = 95 := by
  simp only [isWordChar, Bool.or_eq_true, Bool.and_eq_true, decide_eq_true_eq]
  omega

theorem not_isWsChar_of_isWordChar {c : Char} (h : isWordChar c = true) :
    isWsChar c = false := by
  rw [isWordChar_iff] at h
  by_contra hw
  rw [Bool.not_eq_false, isWsChar_iff] at hw
  omega

theorem lowerChar_isWordChar (c : Char) :
    isWordChar (lowerChar c) = isWordChar c := by
  rw [Bool.eq_iff_iff]
  simp only [isWordChar_iff, toNat_lowerChar]
  split_ifs <;> omega

theorem lowerChar_isWsChar (c : Char) :
    isWsChar (lowerChar c) = isWsChar c := by
  rw [Bool.eq_iff_iff]
  simp only [isWsChar_iff, toNat_lowerChar]
  split_ifs <;> omega

theorem lowerChar_space : lowerChar ' ' = ' ' := rfl

theorem lowerChar_eq_space {c : Char} (h : lowerChar c = ' ') : c = ' ' := by
  rw [char_eq_space_iff] at h ⊢
  rw [toNat_lowerChar] at h
  split_ifs at h <;> omega

/-! ## Lemmas about the text normalizer -/

namespace CategoryExtracter

theorem mem_squeezeSpaces (l : List Char) :
    ∀ c, c ∈ squeezeSpaces l → c ∈ l := by
  induction l with
  | nil => simp [squeezeSpaces]
  | cons a t ih =>
    cases t with
    | nil => simp [squeezeSpaces]
    | cons b t' =>
      intro c hc
      rw [squeezeSpaces] at hc
      split at hc
      · exact List.mem_cons_of_mem a (ih c hc)
      · rcases List.mem_cons.mp hc with h | h
        · exact h ▸ List.mem_cons_self a _
        · exact List.mem_cons_of_mem a (ih c h)

/-- Every character surviving `punctToSpace` then `wsToSpace` on an
all-non-word input is a plain space. -/
theorem wsToSpace_punctToSpace_all_space {l : List Char}
    (h : ∀ c ∈ l, isWordChar c = false) :
    ∀ c ∈ wsToSpace (punctToSpace l), c = ' ' := by
  intro c hc
  simp only [wsToSpace, punctToSpace, List.map_map, List.mem_map] at hc
  obtain ⟨c₀, hc₀, rfl⟩ := hc
  have hw := h c₀ hc₀
  simp only [Function.comp, hw, Bool.false_or]
  by_cases hws : isWsChar c₀ = true
  · simp [hws]
  · simp [hws]

end CategoryExtracter

/-- C9.  The text normalizer is total and deterministic — it is a pure
function of its input in this embedding, mirroring the source, which
reads no mutable state — and it sends the empty string, and every
string whose characters are all non-word (punctuation and whitespace),
to the empty string. -/
theorem C9_clean_text_total_empty_on_punct :
    CategoryExtracter.clean_text "" = ""
    ∧ ∀ s : String, (∀ c ∈ s.data, isWordChar c = false) →
        CategoryExtracter.clean_text s = "" := by
  constructor
  · rfl
  · intro s h
    have hsp : ∀ c ∈ CategoryExtracter.squeezeSpaces
        (CategoryExtracter.wsToSpace (CategoryExtracter.punctToSpace s.data)),
        isWsChar c = true := by
      intro c hc
      have := CategoryExtracter.wsToSpace_punctToSpace_all_space h c
        (CategoryExtracter.mem_squeezeSpaces _ c hc)
      rw [this]
      rfl
    show (⟨CategoryExtracter.cleanTextL s.data⟩ : String) = ""
    rw [CategoryExtracter.cleanTextL, CategoryExtracter.stripWs,
      List.dropWhile_eq_nil_iff.mpr hsp]
    rfl

/-- Witness for C9 at a concrete punctuation-and-whitespace string. -/
theorem C9_clean_text_witness : CategoryExtracter.clean_text "?!,, \t." = "" :=
  C9_clean_text_total_empty_on_punct.2 "?!,, \t." (by decide)

/-- C3 (amended).  `classify_query` returns `advisory` whenever the
cleaned text contains one of the advisory trigger phrases `how many`,
`what is the best`, `least`, `most`, `should`, `why`, regardless of the
filters; otherwise it returns `structured` exactly when some filter
category has a non-empty value list and the cleaned text contains one
of the retrieval verbs `show`, `list`, `find`, `get`, `give me`,
`display` (the source's verb list includes `give me`, which the claim
omits); in every remaining case it returns `advisory`. -/
theorem C3_classifier_rule :
    ∀ (q : String) (fs : List (String × List String)),
      CategoryExtracter.classify_query q fs =
        if ["how many", "what is the best", "least", "most", "should", "why"].any
            (fun t => containsSub (CategoryExtracter.clean_text q) t) then
          "advisory"
        else if (!fs.isEmpty && fs.any fun p => !p.2.isEmpty)
            && ["show", "list", "find", "get", "give me", "display"].any
              (fun t => containsSub (CategoryExtracter.clean_text q) t) then
          "structured"
        else "advisory" :=
  fun _ _ => rfl

/-- Counterexample to C3 as stated: `"Give me TOFU"` contains none of
the five verbs the claim lists and no advisory trigger, yet with a
non-empty filter the classifier returns `structured`, not
`advisory`. -/
theorem C3_give_me_counterexample :
    CategoryExtracter.classify_query "Give me TOFU"
        [("Funnel Stage", ["TOFU"])] = "structured"
    ∧ (["show", "list", "find", "get", "display"].all fun t =>
        !containsSub (CategoryExtracter.clean_text "Give me TOFU") t)
    ∧ (["how many", "what is the best", "least", "most", "should", "why"].all
        fun t => !containsSub (CategoryExtracter.clean_text "Give me TOFU") t) := by
  decide

/-- C1.  The closed-vocabulary invariant is violated on two parse
paths.  (a) The LLM fallback merge of `parse_query`
(`filters.update(llm_filters)`) performs no validation: an LLM response
naming the category `funnel_stage` — absent from the tenant vocabulary —
is emitted verbatim.  (b) Step 2 of `post_process_results` appends a
synonym-mapped value with no check against the tenant's allowed values:
with vocabulary `Language ↦ [English]`, the query `show me non english
content` emits `German`, which the tenant does not allow. -/
theorem C1_closed_vocabulary_violated :
    ((CategoryExtracter.parse_query scorer0 [("funnel_stage", ["Top"])] true
        "tell us about things" [("Funnel Stage", ["TOFU"])]).filters
        = [("funnel_stage", ["Top"])]
      ∧ lookupD [("Funnel Stage", ["TOFU"])] "funnel_stage" = none)
    ∧ (QueryParserWorking.post_process_results scorerSub
          { filters := [], quoted_entities := [],
            query_text := "show me non english content" }
          [("Language", ["English"])] = [("Language", ["German"])]
      ∧ "German" ∉ (lookupD [("Language", ["English"])] "Language").getD []) := by
  decide

/-- Counterexample to C4 as stated: a filter naming a category with no
entry in `FILTER_MAPPING` does not make synthesis fail — there is no
`UnresolvedCategory` error anywhere in the builder — and the filter is
silently dropped: the resulting plan is the bare tenant-scope match. -/
theorem C4_no_unresolved_category_failure :
    TryQueryBuilder.build_structured_pipeline
        { filters := [("Content Mood", ["Upbeat"])],
          database_mapping := ⟨[], [], []⟩,
          operation_type := "list", aggregation_requested := false }
        "tenant1" (fun _ _ => none)
      = [Stage.matchTenant "tenant1"]
    ∧ lookupA TryQueryBuilder.FILTER_MAPPING "Content Mood" = none := by
  decide

/-- Counterexample to C6 as stated: no token-length guard exists —
`fuzzy_extract` happily matches the 2-character token `ai` against the
allowed value `ai` (every rapidfuzz scorer, `WRatio` included, scores
identical strings 100 ≥ 85). -/
theorem C6_short_token_fuzzy_match :
    ("ai" : String).length < 3
    ∧ CategoryExtracter.fuzzy_extract scorer0 "ai" ["ai"] 85 = ["ai"] := by
  decide

/-! ## Append-only fold lemmas (the builders only ever append stages) -/

theorem foldl_append_shape {α β : Type} (g : β → List α) (l : List β) :
    ∀ pl : List α, ∃ t, List.foldl (fun acc b => acc ++ g b) pl l = pl ++ t := by
  induction l with
  | nil => exact fun pl => ⟨[], (List.append_nil pl).symm⟩
  | cons b bs ih =>
    intro pl
    obtain ⟨t2, h2⟩ := ih (pl ++ g b)
    exact ⟨g b ++ t2, by rw [List.foldl_cons, h2, List.append_assoc]⟩

theorem mem_foldl_append {α β : Type} (g : β → List α) (l : List β)
    (pl : List α) {x : α} (hx : x ∈ pl) :
    x ∈ List.foldl (fun acc b => acc ++ g b) pl l := by
  obtain ⟨t, ht⟩ := foldl_append_shape g l pl
  rw [ht]
  exact List.mem_append_left _ hx

theorem mem_foldl_append_of_mem {α β : Type} (g : β → List α) {l : List β}
    {b : β} (hb : b ∈ l) {x : α} (hx : x ∈ g b) (pl : List α) :
    x ∈ List.foldl (fun acc b => acc ++ g b) pl l := by
  obtain ⟨s, t, rfl⟩ := List.append_of_mem hb
  rw [List.foldl_append, List.foldl_cons]
  exact mem_foldl_append g t _
    (List.mem_append_right _ hx)

theorem TryQueryBuilder.apply_aggregation_shape
    (pl : List Stage) (po : TryQueryBuilder.ParserOutput) :
    ∃ t, TryQueryBuilder.apply_aggregation pl po = pl ++ t := by
  simp only [TryQueryBuilder.apply_aggregation]
  split_ifs <;>
    first
      | exact ⟨[], (List.append_nil pl).symm⟩
      | exact ⟨_, rfl⟩
      | exact ⟨_, List.append_assoc ..⟩

theorem exists_cons_trans {α : Type} {x : α} {A : List α} {B : List α}
    (h : ∃ r, A = x :: r) : ∃ r, A ++ B = x :: r := by
  obtain ⟨r, hr⟩ := h
  exact ⟨r ++ B, by rw [hr]; rfl⟩

theorem PipelineBuilder.pb_build_shape (px : PipelineBuilder.ParsedQueryPB)
    (t : String) :
    ∃ r, PipelineBuilder.build_structured_pipeline px t
      = Stage.matchTenant t :: r := by
  simp only [PipelineBuilder.build_structured_pipeline]
  obtain ⟨t1, h1⟩ := foldl_append_shape (PipelineBuilder.joinStagesFor px t)
    px.database_mapping.required_joins [Stage.matchTenant t]
  rw [h1]
  split_ifs with h2 h3 h4
  · obtain ⟨t2, h5⟩ := foldl_append_shape (PipelineBuilder.aggStagesFor px)
      px.database_mapping.aggregation_fields
      (([Stage.matchTenant t] ++ t1)
        ++ [Stage.matchDirect
          (px.database_mapping.direct_fields.filter fun p => p.2 ≠ [])])
    rw [h5]
    exact exists_cons_trans (exists_cons_trans ⟨t1, rfl⟩)
  · obtain ⟨t2, h5⟩ := foldl_append_shape (PipelineBuilder.aggStagesFor px)
      px.database_mapping.aggregation_fields ([Stage.matchTenant t] ++ t1)
    rw [h5]
    exact exists_cons_trans ⟨t1, rfl⟩
  · exact exists_cons_trans ⟨t1, rfl⟩
  · exact ⟨t1, rfl⟩

theorem TryQueryBuilder.tqb_build_shape (po : TryQueryBuilder.ParserOutput)
    (t : String) (cidx : String → String → Option String) :
    ∃ r, TryQueryBuilder.build_structured_pipeline po t cidx
      = Stage.matchTenant t :: r := by
  simp only [TryQueryBuilder.build_structured_pipeline,
    TryQueryBuilder.build_tenant_match]
  obtain ⟨ta, hta⟩ := TryQueryBuilder.apply_aggregation_shape _ po
  rw [hta]
  apply exists_cons_trans
  split
  · apply exists_cons_trans
    split_ifs
    · exact exists_cons_trans ⟨[], rfl⟩
    · exact ⟨[], rfl⟩
  · split_ifs
    · exact exists_cons_trans ⟨[], rfl⟩
    · exact ⟨[], rfl⟩

/-- C2.  Every query plan either builder produces is non-empty and
begins with the tenant-scope match on the given tenant id, regardless
of the joins, filters, or aggregation stages that follow. -/
theorem C2_plans_begin_with_tenant_scope :
    ∀ (px : PipelineBuilder.ParsedQueryPB) (po : TryQueryBuilder.ParserOutput)
      (t : String) (cidx : String → String → Option String),
      (∃ r, PipelineBuilder.build_structured_pipeline px t
        = Stage.matchTenant t :: r)
      ∧ ∃ r, TryQueryBuilder.build_structured_pipeline po t cidx
        = Stage.matchTenant t :: r :=
  fun px po t cidx =>
    ⟨PipelineBuilder.pb_build_shape px t, TryQueryBuilder.tqb_build_shape po t cidx⟩

theorem PipelineBuilder.mem_build_of_mem_joinStages
    (px : PipelineBuilder.ParsedQueryPB) (t : String) {j : Join}
    (hj : j ∈ px.database_mapping.required_joins) {x : Stage}
    (hx : x ∈ PipelineBuilder.joinStagesFor px t j) :
    x ∈ PipelineBuilder.build_structured_pipeline px t := by
  simp only [PipelineBuilder.build_structured_pipeline]
  have h1 : x ∈ List.foldl
      (fun pl join => pl ++ PipelineBuilder.joinStagesFor px t join)
      [Stage.matchTenant t] px.database_mapping.required_joins :=
    mem_foldl_append_of_mem (PipelineBuilder.joinStagesFor px t) hj hx _
  split_ifs
  · exact mem_foldl_append _ _ _ (List.mem_append_left _ h1)
  · exact mem_foldl_append _ _ _ h1
  · exact List.mem_append_left _ h1
  · exact h1

/-- C7.  For every `category_attributes` join the builder emits: when
aggregation is requested the lookup's inner match constrains only the
`_id` membership and the tenant (no value filter); when aggregation is
not requested and the join carries values, the inner match additionally
filters the lookup field to those values. -/
theorem C7_join_value_filter_iff_not_aggregation :
    ∀ (px : PipelineBuilder.ParsedQueryPB) (t : String) (j : Join),
      j ∈ px.database_mapping.required_joins →
      j.collection = "category_attributes" →
      (px.aggregation_requested = true →
        Stage.lookup "category_attributes" "categoryAttribute" t none none
          "categoryAttributeDetails"
          ∈ PipelineBuilder.build_structured_pipeline px t)
      ∧ (px.aggregation_requested = false → j.values ≠ [] →
        Stage.lookup "category_attributes" "categoryAttribute" t none
          (some (j.lookup_field, j.values)) "categoryAttributeDetails"
          ∈ PipelineBuilder.build_structured_pipeline px t) := by
  intro px t j hj hc
  constructor
  · intro ha
    apply PipelineBuilder.mem_build_of_mem_joinStages px t hj
    simp [PipelineBuilder.joinStagesFor, hc, ha]
  · intro ha hv
    apply PipelineBuilder.mem_build_of_mem_joinStages px t hj
    simp [PipelineBuilder.joinStagesFor, hc, ha, hv]

/-- C8.  The confidence score is clamped into `[0, 1]` for every parsed
result and query text, and the advisor harness always produces the
pair, substituting `[]` for a failed suggestion generation and `0.5`
for a failed confidence calculation. -/
theorem C8_confidence_bounded_and_advisor_fallback :
    (∀ (pr : QueryParser.ParsedResultD) (qt : String),
        0 ≤ QueryParser.calculate_confidence pr qt
        ∧ QueryParser.calculate_confidence pr qt ≤ 1)
    ∧ (∀ (e : String) (cr : Except String ℚ),
        (QueryParser.advisorSection (Except.error e) cr).1 = [])
    ∧ (∀ (sr : Except String (List String)) (e : String),
        (QueryParser.advisorSection sr (Except.error e)).2 = 1/2)
    ∧ (∀ (s : List String) (c : ℚ),
        QueryParser.advisorSection (Except.ok s) (Except.ok c) = (s, c)) := by
  refine ⟨fun pr qt => ⟨?_, ?_⟩, fun e cr => rfl, fun sr e => rfl,
    fun s c => rfl⟩
  · exact le_max_left 0 _
  · exact max_le (by norm_num) (min_le_left 1 _)

/-- C4 (amended).  A filter naming a category absent from the database
field mapping never fails synthesis — no `UnresolvedCategory` error
exists — and is silently dropped: it contributes nothing to the plan
nor to the prepared database mapping, while absent or empty inputs
likewise just yield fewer stages. -/
theorem C4_unmapped_category_silently_dropped :
    ∀ (cat : String) (vs : List String)
      (rest rest' : List (String × List String)) (dm : DatabaseMapping)
      (op : String) (agg : Bool) (t : String)
      (cidx : String → String → Option String),
      lookupA TryQueryBuilder.FILTER_MAPPING cat = none →
      lookupA TryQueryParser.get_database_field_mapping cat = none →
      TryQueryBuilder.build_structured_pipeline
          ⟨(cat, vs) :: rest, dm, op, agg⟩ t cidx
        = TryQueryBuilder.build_structured_pipeline ⟨rest, dm, op, agg⟩ t cidx
      ∧ TryQueryParser.buildDatabaseInfo ((cat, vs) :: rest')
        = TryQueryParser.buildDatabaseInfo rest' := by
  intro cat vs rest rest' dm op agg t cidx h1 h2
  have hirrel : ∀ (pl : List Stage) (f1 f2 : List (String × List String)),
      TryQueryBuilder.apply_aggregation pl ⟨f1, dm, op, agg⟩
        = TryQueryBuilder.apply_aggregation pl ⟨f2, dm, op, agg⟩ :=
    fun pl f1 f2 => rfl
  constructor
  · simp only [TryQueryBuilder.build_structured_pipeline, List.foldl_cons]
    simp [h1]
    exact hirrel _ _ _
  · simp only [TryQueryParser.buildDatabaseInfo, List.foldl_cons]
    simp [h2]

/-- Witness for C7: with aggregation requested the emitted lookup
carries no value filter; without it the same join carries the `name ∈
[TOFU]` filter. -/
theorem C7_value_filter_witness :
    Stage.lookup "category_attributes" "categoryAttribute" "t1" none none
        "categoryAttributeDetails"
      ∈ PipelineBuilder.build_structured_pipeline pxAgg "t1"
    ∧ Stage.lookup "category_attributes" "categoryAttribute" "t1" none
        (some ("name", ["TOFU"])) "categoryAttributeDetails"
      ∈ PipelineBuilder.build_structured_pipeline pxFlt "t1" :=
  ⟨(C7_join_value_filter_iff_not_aggregation pxAgg "t1" joinFS (by decide)
      rfl).1 rfl,
   (C7_join_value_filter_iff_not_aggregation pxFlt "t1" joinFS (by decide)
      rfl).2 rfl (by decide)⟩

/-- Witness for C4 at a concrete unmapped category. -/
theorem C4_unmapped_witness :
    TryQueryBuilder.build_structured_pipeline
        ⟨[("Content Mood", ["Upbeat"])], ⟨[], [], []⟩, "list", false⟩
        "tenant1" (fun _ _ => none)
      = TryQueryBuilder.build_structured_pipeline
        ⟨[], ⟨[], [], []⟩, "list", false⟩ "tenant1" (fun _ _ => none)
    ∧ TryQueryParser.buildDatabaseInfo [("Content Mood", ["Upbeat"])]
      = TryQueryParser.buildDatabaseInfo [] :=
  C4_unmapped_category_silently_dropped "Content Mood" ["Upbeat"] [] []
    ⟨[], [], []⟩ "list" false "tenant1" (fun _ _ => none)
    (by decide) (by decide)

theorem mem_addUnique_of_mem {l : List String} {x y : String} (hy : y ∈ l) :
    y ∈ addUnique l x := by
  unfold addUnique
  split_ifs
  · exact hy
  · exact List.mem_append_left _ hy

theorem mem_addUnique_self (l : List String) (x : String) :
    x ∈ addUnique l x := by
  unfold addUnique
  split_ifs with h
  · exact h
  · exact List.mem_append_right _ (List.mem_singleton.mpr rfl)

theorem addUnique_ne_nil (l : List String) (x : String) :
    addUnique l x ≠ [] := by
  intro h
  exact absurd (h ▸ mem_addUnique_self l x) (List.not_mem_nil x)

theorem mem_foldl_of_mono {β : Type} (f : List String → β → List String)
    (hf : ∀ m b y, y ∈ m → y ∈ f m b) (l : List β) :
    ∀ (m : List String) (y : String), y ∈ m → y ∈ l.foldl f m := by
  induction l with
  | nil => exact fun m y hy => hy
  | cons b bs ih => exact fun m y hy => ih _ y (hf m b y hy)

theorem mem_foldl_of_step {β : Type} (f : List String → β → List String)
    (hf : ∀ m b y, y ∈ m → y ∈ f m b) {l : List β} {b : β} (hb : b ∈ l)
    {y : String} (hy : ∀ m, y ∈ f m b) (m : List String) :
    y ∈ l.foldl f m := by
  obtain ⟨s, t, rfl⟩ := List.append_of_mem hb
  rw [List.foldl_append, List.foldl_cons]
  exact mem_foldl_of_mono f hf t _ y (hy _)

theorem mem_insertByScoreDesc {scorer : String → String → Nat}
    {query x y : String} :
    ∀ {l : List String},
      y ∈ CategoryExtracter.insertByScoreDesc scorer query x l
        ↔ y = x ∨ y ∈ l := by
  intro l
  induction l with
  | nil => simp [CategoryExtracter.insertByScoreDesc]
  | cons a t ih =>
    rw [CategoryExtracter.insertByScoreDesc]
    split_ifs
    · exact List.mem_cons
    · rw [List.mem_cons, ih, List.mem_cons]
      tauto

theorem mem_sortByScoreDesc {scorer : String → String → Nat}
    {query y : String} :
    ∀ {l : List String},
      y ∈ CategoryExtracter.sortByScoreDesc scorer query l ↔ y ∈ l := by
  intro l
  induction l with
  | nil => simp [CategoryExtracter.sortByScoreDesc]
  | cons a t ih =>
    rw [CategoryExtracter.sortByScoreDesc, mem_insertByScoreDesc, ih,
      List.mem_cons]

theorem length_insertByScoreDesc (scorer : String → String → Nat)
    (query x : String) :
    ∀ l : List String,
      (CategoryExtracter.insertByScoreDesc scorer query x l).length
        = l.length + 1 := by
  intro l
  induction l with
  | nil => rfl
  | cons a t ih =>
    rw [CategoryExtracter.insertByScoreDesc]
    split_ifs
    · rfl
    · simp only [List.length_cons, ih]

theorem length_sortByScoreDesc (scorer : String → String → Nat)
    (query : String) :
    ∀ l : List String,
      (CategoryExtracter.sortByScoreDesc scorer query l).length
        = l.length := by
  intro l
  induction l with
  | nil => rfl
  | cons a t ih =>
    rw [CategoryExtracter.sortByScoreDesc, length_insertByScoreDesc, ih]
    rfl

/-- When at most five options reach the cutoff, the extractor's default
result cap does not bite and every option scoring at or above the
threshold is returned. -/
theorem mem_fuzzy_extract_of_le {scorer : String → String → Nat}
    {query opt : String} {options : List String} {threshold : Nat}
    (hmem : opt ∈ options) (hsc : threshold ≤ scorer query opt)
    (hlen : (options.filter fun o => threshold ≤ scorer query o).length ≤ 5) :
    opt ∈ CategoryExtracter.fuzzy_extract scorer query options threshold := by
  unfold CategoryExtracter.fuzzy_extract
  rw [List.take_of_length_le (by rw [length_sortByScoreDesc]; exact hlen)]
  rw [mem_sortByScoreDesc]
  exact List.mem_filter.mpr ⟨hmem, by simpa using hsc⟩

/-- The fuzzy tier of the per-category match loop adds, for every lemma
token — of any length — and every normalized option the extractor
returns for it, the corresponding original option to the match set. -/
theorem mem_categoryMatches_of_fuzzy
    (scorer : String → String → Nat) (qc : String) (lemmas : List String)
    (options : List String) {lem nopt opt : String}
    (hlem : lem ∈ lemmas)
    (hnoptF : nopt ∈ CategoryExtracter.fuzzy_extract scorer lem
      (options.map CategoryExtracter.clean_text) 85)
    (horig : CategoryExtracter.origAt options
      (options.map CategoryExtracter.clean_text) nopt = some opt) :
    opt ∈ CategoryExtracter.categoryMatches scorer qc lemmas options := by
  have hmonoInner : ∀ (m : List String) (mt : String) (y : String), y ∈ m →
      y ∈ (match CategoryExtracter.origAt options
            (options.map CategoryExtracter.clean_text) mt with
          | some o => addUnique m o
          | none => m) := by
    intro m mt y hy
    cases CategoryExtracter.origAt options
        (options.map CategoryExtracter.clean_text) mt with
    | some o => exact mem_addUnique_of_mem hy
    | none => exact hy
  exact mem_foldl_of_step
    (fun m lem' =>
      (CategoryExtracter.fuzzy_extract scorer lem'
        (options.map CategoryExtracter.clean_text) 85).foldl
        (fun m mt =>
          match CategoryExtracter.origAt options
              (options.map CategoryExtracter.clean_text) mt with
          | some o => addUnique m o
          | none => m) m)
    (fun m b y hy => mem_foldl_of_mono _ (fun m _ y hy => hmonoInner m _ y hy)
      _ m y hy)
    hlem
    (fun m => mem_foldl_of_step _ (fun m _ y hy => hmonoInner m _ y hy)
      hnoptF (fun m => by rw [horig]; exact mem_addUnique_self m opt) m)
    _

theorem lookupD_buildFilters (scorer : String → String → Nat) (qc : String)
    (lemmas : List String) :
    ∀ (catMap : List (String × List String)) (cat : String)
      (options : List String),
      lookupD catMap cat = some options →
      CategoryExtracter.categoryMatches scorer qc lemmas options ≠ [] →
      lookupD (CategoryExtracter.buildFilters scorer qc lemmas catMap) cat
        = some (CategoryExtracter.categoryMatches scorer qc lemmas options) := by
  intro catMap
  induction catMap with
  | nil => intro cat options h _; simp [lookupD] at h
  | cons kv rest ih =>
    intro cat options hlook hne
    by_cases hk : kv.1 = cat
    · have hopts : kv.2 = options := by
        simp [lookupD, List.find?_cons, hk] at hlook
        exact hlook
      rw [CategoryExtracter.buildFilters]
      rw [if_neg (by simpa [hopts, List.isEmpty_iff] using hne)]
      simp [lookupD, List.find?_cons, hk, hopts]
    · have hlook' : lookupD rest cat = some options := by
        simpa [lookupD, List.find?_cons, hk] using hlook
      rw [CategoryExtracter.buildFilters]
      split_ifs
      · exact ih cat options hlook' hne
      · simpa [lookupD, List.find?_cons, hk] using ih cat options hlook' hne

/-- C6 (amended).  Fuzzy token matching accepts a token–value pair
exactly when the similarity score is at or above the threshold (default
85/100), except that the extractor keeps at most its default of the
five best-scoring matches per token; there is no token-length
exclusion: a token shorter than 3 characters participates like any
other, and whenever at most five normalized values reach the cutoff for
it (so the cap does not bite), its scoring value reaches the emitted
filters of `parse_query`. -/
theorem C6_fuzzy_threshold_no_length_exclusion :
    ∀ (scorer : String → String → Nat)
      (llm : List (String × List String)) (use_llm : Bool) (q : String)
      (catMap : List (String × List String)) (cat : String)
      (options : List String) (lem nopt : String),
      lookupD catMap cat = some options →
      lem ∈ CategoryExtracter.lemmatize_words (CategoryExtracter.clean_text q) →
      lem.length < 3 →
      nopt ∈ options.map CategoryExtracter.clean_text →
      85 ≤ scorer lem nopt →
      ((options.map CategoryExtracter.clean_text).filter
        fun o => 85 ≤ scorer lem o).length ≤ 5 →
      ∃ opt ms,
        CategoryExtracter.origAt options
          (options.map CategoryExtracter.clean_text) nopt = some opt
        ∧ lookupD (CategoryExtracter.parse_query scorer llm use_llm q
            catMap).filters cat = some ms
        ∧ opt ∈ ms := by
  intro scorer llm use_llm q catMap cat options lem nopt hlook hlem hshort
    hnopt hsc hcap
  have hidx : (options.map CategoryExtracter.clean_text).indexOf nopt
      < options.length := by
    have := List.indexOf_lt_length.mpr hnopt
    simpa using this
  obtain ⟨opt, horig⟩ : ∃ opt, CategoryExtracter.origAt options
      (options.map CategoryExtracter.clean_text) nopt = some opt := by
    unfold CategoryExtracter.origAt
    exact ⟨options[(options.map CategoryExtracter.clean_text).indexOf nopt],
      List.getElem?_eq_getElem hidx⟩
  have hnoptF : nopt ∈ CategoryExtracter.fuzzy_extract scorer lem
      (options.map CategoryExtracter.clean_text) 85 :=
    mem_fuzzy_extract_of_le hnopt hsc hcap
  have hmem := mem_categoryMatches_of_fuzzy scorer
    (CategoryExtracter.clean_text q)
    (CategoryExtracter.lemmatize_words (CategoryExtracter.clean_text q))
    options hlem hnoptF horig
  have hne : CategoryExtracter.categoryMatches scorer
      (CategoryExtracter.clean_text q)
      (CategoryExtracter.lemmatize_words (CategoryExtracter.clean_text q))
      options ≠ [] := by
    intro h
    exact absurd (h ▸ hmem) (List.not_mem_nil opt)
  have hfind := lookupD_buildFilters scorer (CategoryExtracter.clean_text q)
    (CategoryExtracter.lemmatize_words (CategoryExtracter.clean_text q))
    catMap cat options hlook hne
  have hbne : (CategoryExtracter.buildFilters scorer
      (CategoryExtracter.clean_text q)
      (CategoryExtracter.lemmatize_words (CategoryExtracter.clean_text q))
      catMap).isEmpty = false := by
    cases hb : CategoryExtracter.buildFilters scorer
        (CategoryExtracter.clean_text q)
        (CategoryExtracter.lemmatize_words (CategoryExtracter.clean_text q))
        catMap with
    | nil => rw [hb] at hfind; simp [lookupD] at hfind
    | cons a b => rfl
  refine ⟨opt, _, horig, ?_, hmem⟩
  show lookupD (CategoryExtracter.parse_query scorer llm use_llm q
      catMap).filters cat = _
  simp only [CategoryExtracter.parse_query, hbne, Bool.and_false,
    if_neg Bool.false_ne_true]
  exact hfind

/-- Witness for C6: the 2-character token `ai` fuzzy-matches the
vocabulary value `AI` (normalized `ai`, identical strings score 100,
one value at the cutoff so the five-best cap does not bite) and the
value is emitted in the filters. -/
theorem C6_fuzzy_threshold_witness :
    ∃ opt ms,
      CategoryExtracter.origAt ["AI"]
        (["AI"].map CategoryExtracter.clean_text) "ai" = some opt
      ∧ lookupD (CategoryExtracter.parse_query scorer0 [] false
          "list ai items" [("Tags", ["AI"])]).filters "Tags" = some ms
      ∧ opt ∈ ms :=
  C6_fuzzy_threshold_no_length_exclusion scorer0 [] false "list ai items"
    [("Tags", ["AI"])] "Tags" ["AI"] "ai" "ai"
    (by decide) (by decide) (by decide) (by decide) (by decide) (by decide)

/-! ## Idempotence of the text normalizer (C10) -/

namespace CategoryExtracter

theorem head?_squeezeSpaces {b : Char} (t : List Char) (hb : b ≠ ' ') :
    (squeezeSpaces (b :: t)).head? = some b := by
  cases t with
  | nil => rfl
  | cons c t' =>
    rw [squeezeSpaces, if_neg (by simp [hb])]
    rfl

theorem chain'_squeezeSpaces : ∀ l : List Char,
    List.Chain' NoAdj (squeezeSpaces l) := by
  intro l
  induction l with
  | nil => simp [squeezeSpaces]
  | cons a t ih =>
    cases t with
    | nil => simp [squeezeSpaces]
    | cons b t' =>
      rw [squeezeSpaces]
      split_ifs with h
      · exact ih
      · rw [List.chain'_cons']
        refine ⟨?_, ih⟩
        intro y hy
        by_cases ha : a = ' '
        · have hb : b ≠ ' ' := fun hb => h (by simp [ha, hb])
          rw [head?_squeezeSpaces t' hb, Option.mem_def, Option.some_inj] at hy
          exact fun hcon => hb (hy ▸ hcon.2)
        · exact fun hcon => ha hcon.1

theorem squeezeSpaces_eq_self : ∀ {l : List Char},
    List.Chain' NoAdj l → squeezeSpaces l = l := by
  intro l
  induction l with
  | nil => intro _; rfl
  | cons a t ih =>
    cases t with
    | nil => intro _; rfl
    | cons b t' =>
      intro h
      rw [List.chain'_cons] at h
      rw [squeezeSpaces,
        if_neg (by simp only [Bool.and_eq_true, decide_eq_true_eq]
                   exact fun hc => h.1 hc),
        ih h.2]

theorem mem_stripWs {l : List Char} {c : Char} (hc : c ∈ stripWs l) :
    c ∈ l := by
  unfold stripWs at hc
  rw [List.mem_reverse] at hc
  have h1 := (List.dropWhile_sublist isWsChar).subset hc
  rw [List.mem_reverse] at h1
  exact (List.dropWhile_sublist isWsChar).subset h1

theorem mem_wsToSpace_punctToSpace {l : List Char} {c : Char}
    (hc : c ∈ wsToSpace (punctToSpace l)) :
    isWordChar c = true ∨ c = ' ' := by
  simp only [wsToSpace, punctToSpace, List.map_map, List.mem_map] at hc
  obtain ⟨d, _, rfl⟩ := hc
  simp only [Function.comp]
  by_cases hw : isWordChar d = true
  · left
    simp [hw, not_isWsChar_of_isWordChar hw]
  · right
    by_cases hws : isWsChar d = true
    · simp [hw, hws]
    · simp [hw, hws]

theorem mem_cleanTextL {l : List Char} {c : Char} (hc : c ∈ cleanTextL l) :
    isWordChar c = true ∨ c = ' ' := by
  simp only [cleanTextL, List.mem_map] at hc
  obtain ⟨d, hd, rfl⟩ := hc
  rcases mem_wsToSpace_punctToSpace
      (mem_squeezeSpaces _ _ (mem_stripWs hd)) with h | h
  · left
    rw [lowerChar_isWordChar]
    exact h
  · right
    rw [h]
    rfl

theorem chain'_dropWhile {R : Char → Char → Prop} {p : Char → Bool}
    {l : List Char} (h : List.Chain' R l) :
    List.Chain' R (l.dropWhile p) := by
  obtain ⟨pre, hpre⟩ := List.dropWhile_suffix p (l := l)
  rw [← hpre] at h
  exact (List.chain'_append.mp h).2.1

theorem chain'_reverse_noAdj {l : List Char} (h : List.Chain' NoAdj l) :
    List.Chain' NoAdj l.reverse := by
  rw [List.chain'_reverse]
  exact h.imp fun a b hab => fun hc => hab ⟨hc.2, hc.1⟩

theorem chain'_stripWs {l : List Char} (h : List.Chain' NoAdj l) :
    List.Chain' NoAdj (stripWs l) := by
  unfold stripWs
  exact chain'_reverse_noAdj (chain'_dropWhile (chain'_reverse_noAdj
    (chain'_dropWhile h)))

theorem chain'_map_lowerChar {l : List Char} (h : List.Chain' NoAdj l) :
    List.Chain' NoAdj (l.map lowerChar) := by
  rw [List.chain'_map]
  exact h.imp fun a b hab => fun hc =>
    hab ⟨lowerChar_eq_space hc.1, lowerChar_eq_space hc.2⟩

theorem chain'_cleanTextL (l : List Char) :
    List.Chain' NoAdj (cleanTextL l) :=
  chain'_map_lowerChar (chain'_stripWs (chain'_squeezeSpaces _))

theorem head?_dropWhile_not (p : Char → Bool) :
    ∀ (l : List Char), ∀ x ∈ (l.dropWhile p).head?, p x = false := by
  intro l
  induction l with
  | nil => intro x hx; simp at hx
  | cons a t ih =>
    intro x hx
    by_cases hpa : p a = true
    · rw [List.dropWhile_cons_of_pos hpa] at hx
      exact ih x hx
    · rw [List.dropWhile_cons_of_neg hpa] at hx
      rw [Option.mem_def, List.head?_cons, Option.some_inj] at hx
      subst hx
      simpa using hpa

theorem getLast?_map_char (f : Char → Char) (l : List Char) :
    (l.map f).getLast? = l.getLast?.map f := by
  rw [← List.head?_reverse, ← List.map_reverse, List.head?_map,
    List.head?_reverse]

theorem stripWs_head_not_ws (l : List Char) :
    ∀ x ∈ (stripWs l).head?, isWsChar x = false := by
  intro x hx
  unfold stripWs at hx
  rw [List.head?_reverse] at hx
  -- hx : x ∈ (dropWhile ws X).getLast?  with X := (dropWhile ws l).reverse
  rw [Option.mem_def] at hx
  have hsp := List.dropWhile_suffix (l := (l.dropWhile isWsChar).reverse)
    isWsChar
  obtain ⟨pre, hpre⟩ := hsp
  have hX : ((l.dropWhile isWsChar).reverse).getLast? = some x := by
    rw [← hpre, List.getLast?_append, hx]
    rfl
  rw [List.getLast?_reverse] at hX
  exact head?_dropWhile_not isWsChar l x (Option.mem_def.mpr hX)

theorem stripWs_getLast_not_ws (l : List Char) :
    ∀ x ∈ (stripWs l).getLast?, isWsChar x = false := by
  intro x hx
  unfold stripWs at hx
  rw [List.getLast?_reverse] at hx
  exact head?_dropWhile_not isWsChar _ x hx

theorem stripWs_eq_self {l : List Char}
    (hh : ∀ x ∈ l.head?, isWsChar x = false)
    (hl : ∀ x ∈ l.getLast?, isWsChar x = false) : stripWs l = l := by
  unfold stripWs
  have h1 : l.dropWhile isWsChar = l := by
    cases l with
    | nil => rfl
    | cons a t =>
      exact List.dropWhile_cons_of_neg
        (by simpa using hh a (Option.mem_def.mpr rfl))
  rw [h1]
  have h2 : l.reverse.dropWhile isWsChar = l.reverse := by
    cases hrev : l.reverse with
    | nil => rfl
    | cons a t =>
      have ha : a ∈ l.getLast? := by
        rw [← List.head?_reverse, hrev]
        exact Option.mem_def.mpr rfl
      exact List.dropWhile_cons_of_neg (by simpa using hl a ha)
  rw [h2, List.reverse_reverse]

theorem map_fix (f : Char → Char) :
    ∀ (l : List Char), (∀ c ∈ l, f c = c) → l.map f = l := by
  intro l
  induction l with
  | nil => intro _; rfl
  | cons a t ih =>
    intro h
    simp only [List.map_cons]
    rw [h a (List.mem_cons_self a t),
      ih fun c hc => h c (List.mem_cons_of_mem a hc)]

theorem punctToSpace_cleanTextL (l : List Char) :
    punctToSpace (cleanTextL l) = cleanTextL l := by
  apply map_fix
  intro c hc
  rcases mem_cleanTextL hc with h | h
  · rw [if_pos (by simp [h])]
  · subst h
    decide

theorem wsToSpace_cleanTextL (l : List Char) :
    wsToSpace (cleanTextL l) = cleanTextL l := by
  apply map_fix
  intro c hc
  rcases mem_cleanTextL hc with h | h
  · rw [if_neg (by simp [not_isWsChar_of_isWordChar h])]
  · subst h
    decide

theorem cleanTextL_head_not_ws (l : List Char) :
    ∀ x ∈ (cleanTextL l).head?, isWsChar x = false := by
  intro x hx
  rw [cleanTextL, List.head?_map, Option.mem_def,
    Option.map_eq_some'] at hx
  obtain ⟨y, hy, rfl⟩ := hx
  rw [lowerChar_isWsChar]
  exact stripWs_head_not_ws _ y (Option.mem_def.mpr hy)

theorem cleanTextL_getLast_not_ws (l : List Char) :
    ∀ x ∈ (cleanTextL l).getLast?, isWsChar x = false := by
  intro x hx
  rw [cleanTextL, getLast?_map_char, Option.mem_def,
    Option.map_eq_some'] at hx
  obtain ⟨y, hy, rfl⟩ := hx
  rw [lowerChar_isWsChar]
  exact stripWs_getLast_not_ws _ y (Option.mem_def.mpr hy)

theorem map_lower_cleanTextL (l : List Char) :
    (cleanTextL l).map lowerChar = cleanTextL l := by
  rw [cleanTextL, List.map_map]
  apply List.map_congr_left
  intro a _
  exact lowerChar_idem a

theorem cleanTextL_idem (l : List Char) :
    cleanTextL (cleanTextL l) = cleanTextL l := by
  conv_lhs => rw [cleanTextL]
  rw [punctToSpace_cleanTextL, wsToSpace_cleanTextL,
    squeezeSpaces_eq_self (chain'_cleanTextL l),
    stripWs_eq_self (cleanTextL_head_not_ws l) (cleanTextL_getLast_not_ws l),
    map_lower_cleanTextL]

end CategoryExtracter

/-- C10.  `clean_text` is idempotent: normalizing already-normalized
text returns it unchanged, so normalized text passes through every
matcher unaltered. -/
theorem C10_clean_text_idempotent :
    ∀ s : String,
      CategoryExtracter.clean_text (CategoryExtracter.clean_text s)
        = CategoryExtracter.clean_text s := by
  intro s
  show (⟨CategoryExtracter.cleanTextL
      (CategoryExtracter.cleanTextL s.data)⟩ : String)
    = ⟨CategoryExtracter.cleanTextL s.data⟩
  rw [CategoryExtracter.cleanTextL_idem]

end DemandGenius

